import Mathlib

set_option autoImplicit false

/-!
Shallow embedding of the cache/invalidation engine of src/src/index.ts
(createApi): the entry store, setKey, loadUrl, touchWithMatcher,
deferRemoveKey, reset, save, restore, and the useApi subscriber-count
bookkeeping.  External collaborators are instantiated at their defaults
from the source: the modifier is the identity (so the valueCache WeakMap
is transparent), transformKeys is a pure data-shape transform taken as
the identity, loadUrlFromCache resolves undefined, and the pluggable
deduplicationStrategy is kept as an explicit parameter (called dedup).
JS promises are represented by numeric ids; the eventual continuation of
a fetch promise (lines 209-232) is the resolveFetch operation.  JS
setTimeout handles are numeric ids held in a runtime timer table that is
separate from the per-entry deletionTimeout field, exactly as in JS where
clearTimeout acts on the runtime and not on the field.
-/

namespace SynvoxApi

/-- A JS value as it can appear in a cache slot: null (used for 404),
ordinary response data (represented by a number), or an Error object that
is being passed around as a plain value. -/
inductive JsVal
  | null
  | num (n : Nat)
  | errVal (e : Nat)
  deriving DecidableEq, Repr

/-- The value slot of a cache entry: undefined, an ordinary stored value,
or the throwing getter installed by setKey for an error outcome
(get value() { throw value }, lines 127-135). -/
inductive VSlot
  | undef
  | plain (v : JsVal)
  | thrower (e : Nat)
  deriving DecidableEq, Repr

/-- One cache entry (the Cache map's value type, lines 23-32). -/
structure Entry where
  value : VSlot
  promise : Option Nat
  subscribersCount : Int
  dependentKeys : List String
  deletionTimeout : Option Nat
  deriving DecidableEq, Repr

/-- The engine state: the entry store (a JS Map, modelled as an
insertion-ordered association list), the armed runtime timers
(setTimeout table: id to key of the deferRemoveKey callback), fresh-id
counters, and the list of network GET requests issued so far
(promise id, url). -/
structure ApiState where
  cache : List (String × Entry)
  timers : List (Nat × String)
  nextTimerId : Nat
  nextPromiseId : Nat
  requests : List (Nat × String)
  deriving DecidableEq, Repr

/-- Outcome written through setKey: a promise (future) or a JS value,
where an Error instance among the values selects setKey's error branch. -/
inductive Outcome
  | future (p : Nat)
  | js (v : JsVal)
  deriving DecidableEq, Repr

/-- Result of one fetch: 2xx with data, HTTP 404, or any other failure. -/
inductive FetchResult
  | success (v : JsVal)
  | notFound
  | failure (e : Nat)
  deriving DecidableEq, Repr

/-- What a suspending-mode read does: return a value, throw the pending
promise, or throw a stored error (raised by the destructuring of the
entry's throwing value getter). -/
inductive ReadResult
  | ret (v : JsVal)
  | raisePending (p : Nat)
  | raiseErr (e : Nat)
  deriving DecidableEq, Repr

/-- Lookup in an association list, first binding wins (JS Map.get). -/
def alFind? {α β : Type} [DecidableEq α] : List (α × β) → α → Option β
  | [], _ => none
  | (k, v) :: t, a => if k = a then some v else alFind? t a

/-- JS Map.set: replace the existing binding in place, else append. -/
def alSet {α β : Type} [DecidableEq α] : List (α × β) → α → β → List (α × β)
  | [], a, b => [(a, b)]
  | (k, v) :: t, a, b => if k = a then (a, b) :: t else (k, v) :: alSet t a b

/-- JS Map.delete. -/
def alDelete {α β : Type} [DecidableEq α] : List (α × β) → α → List (α × β)
  | [], _ => []
  | (k, v) :: t, a => if k = a then alDelete t a else (k, v) :: alDelete t a

/-- getMaybeError(() => item.value) (lines 49-55, used at lines 103 and
296): reading the slot but catching a thrown error, which turns a stored
error back into a plain Error value. -/
def slotGetMaybeError : VSlot → VSlot
  | .thrower e => .plain (.errVal e)
  | s => s

/-- The subscriber count currently recorded for a key (0 when absent). -/
def countOf (st : ApiState) (k : String) : Int :=
  match alFind? st.cache k with
  | none => 0
  | some it => it.subscribersCount

/-- The value slot currently recorded for a key (undefined when absent). -/
def entrySlot (st : ApiState) (k : String) : VSlot :=
  match alFind? st.cache k with
  | none => .undef
  | some it => it.value

/-- The in-flight promise currently recorded for a key. -/
def entryPromiseOf (st : ApiState) (k : String) : Option Nat :=
  match alFind? st.cache k with
  | none => none
  | some it => it.promise

/-- The deletionTimeout field currently recorded for a key. -/
def entryTimerOf (st : ApiState) (k : String) : Option Nat :=
  match alFind? st.cache k with
  | none => none
  | some it => it.deletionTimeout

/-- The dependentKeys currently recorded for a key. -/
def depsOf (st : ApiState) (k : String) : List String :=
  match alFind? st.cache k with
  | none => []
  | some it => it.dependentKeys

/-- The value a reader can observe for a key, with a stored error viewed
as the Error value it would surface (used to state that touch commits no
observable change before all refetches settle). -/
def entryView (st : ApiState) (k : String) : Option VSlot :=
  (alFind? st.cache k).map (fun it => slotGetMaybeError it.value)

/-- clearTimeout on an optional handle: removes the timer from the
runtime table; a missing handle is a no-op. -/
def clearEntryTimer (st : ApiState) (t : Option Nat) : ApiState :=
  match t with
  | none => st
  | some tid => { st with timers := alDelete st.timers tid }

/-- The entry seeded for a derived key by the deduplication step
(lines 148-158): present value, zero subscribers, no dependents. -/
def seedEntry (v : JsVal) : Entry :=
  ⟨.plain v, none, 0, [], none⟩

/-- The seeding loop of setKey's value branch (lines 148-158): each
derived key not already present is seeded. -/
def seedKeys : ApiState → List (String × JsVal) → ApiState
  | st, [] => st
  | st, (k, v) :: t =>
      let st1 := if (alFind? st.cache k).isSome then st
                 else { st with cache := alSet st.cache k (seedEntry v) }
      seedKeys st1 t

/-- setKey (lines 100-163).  Returns the new state together with the list
of keys the process-wide subscribers are notified about (empty for a
promise write, the written key otherwise; the trailing debounced
onUpdateCache call is the out-of-scope listener batching). -/
def setKey (dedup : JsVal → List (String × JsVal)) (st : ApiState) (key : String)
    (out : Outcome) : ApiState × List String :=
  let item := alFind? st.cache key
  let subscribersCount : Int := match item with
    | some it => it.subscribersCount
    | none => 0
  let existingValue : VSlot := match item with
    | some it => slotGetMaybeError it.value
    | none => .undef
  let dependentKeys : List String := match item with
    | some it => it.dependentKeys
    | none => []
  let deletionTimeout : Option Nat := match item with
    | some it => it.deletionTimeout
    | none => none
  let st1 := clearEntryTimer st deletionTimeout
  match out with
  | .future p =>
      let e1 : Entry := ⟨existingValue, some p, subscribersCount, dependentKeys, none⟩
      ({ st1 with cache := alSet st1.cache key e1 }, [])
  | .js (.errVal e) =>
      let e1 : Entry := ⟨.thrower e, none, subscribersCount, dependentKeys, none⟩
      ({ st1 with cache := alSet st1.cache key e1 }, [key])
  | .js v =>
      let otherKeys := dedup v
      let e1 : Entry := ⟨.plain v, none, subscribersCount, otherKeys.map Prod.fst, none⟩
      let st2 := { st1 with cache := alSet st1.cache key e1 }
      (seedKeys st2 otherKeys, [key])

/-- The miss path of loadUrl (lines 208-236): create the fetch promise
(whose continuation will issue exactly one axios GET, recorded here),
register it in the cache, and throw it. -/
def startFetch (dedup : JsVal → List (String × JsVal)) (st : ApiState) (key : String)
    (keys : List String) : ReadResult × ApiState × List String :=
  let p := st.nextPromiseId
  let st1 := { st with nextPromiseId := p + 1, requests := st.requests ++ [(p, key)] }
  (.raisePending p, (setKey dedup st1 key (.future p)).1, keys)

/-- Set-like add used by the per-pass interest set (line 175): add the
key if it is not already there. -/
def addKeyOnce (ks : List String) (k : String) : List String :=
  if k ∈ ks then ks else ks ++ [k]

/-- loadUrl in suspending mode (lines 165-237), with the default identity
modifier, under which the valueCache WeakMap returns the stored value
unchanged.  The keys argument is the reader's interest set of the current
pass (line 175 adds the key before anything can throw).  Destructuring
the entry (line 177) runs the value getter, so an error entry throws
before the deletionTimeout is cleared. -/
def loadUrl (dedup : JsVal → List (String × JsVal)) (st : ApiState) (key : String)
    (keys : List String) : ReadResult × ApiState × List String :=
  let keys := addKeyOnce keys key
  match alFind? st.cache key with
  | none => startFetch dedup st key keys
  | some it =>
      match it.value with
      | .thrower e => (.raiseErr e, st, keys)
      | .plain v => (.ret v, clearEntryTimer st it.deletionTimeout, keys)
      | .undef =>
          let st1 := clearEntryTimer st it.deletionTimeout
          match it.promise with
          | some p => (.raisePending p, st1, keys)
          | none => startFetch dedup st1 key keys

/-- The continuation of the promise created in loadUrl (lines 209-232):
on 2xx store the (case-transformed) data, on 404 store null, on any other
failure store the error itself. -/
def resolveFetch (dedup : JsVal → List (String × JsVal)) (st : ApiState) (key : String)
    (r : FetchResult) : ApiState × List String :=
  match r with
  | .success v => setKey dedup st key (.js v)
  | .notFound => setKey dedup st key (.js .null)
  | .failure e => setKey dedup st key (.js (.errVal e))

/-- What a touch refresh (lines 310-335) hands to the final setKey for
each refetched key: data on 2xx, null on 404, the error object otherwise. -/
def fetchToVal : FetchResult → JsVal
  | .success v => v
  | .notFound => .null
  | .failure e => .errVal e

/-- The value slot setKey ends up storing for a given JS value. -/
def valueSlotOf : JsVal → VSlot
  | .errVal e => .thrower e
  | v => .plain v

/-- Whether a JS value is an Error object (instanceof Error). -/
def JsVal.isErrorObj : JsVal → Bool
  | .errVal _ => true
  | _ => false

/-- The notification batch setKey emits for a given outcome. -/
def expectedNotes (k : String) : Outcome → List String
  | .future _ => []
  | .js _ => [k]

/-- The dependentKeys recorded after a setKey: recomputed in full from the
new value on a successful value write, carried over otherwise. -/
def depsAfterWrite (dedup : JsVal → List (String × JsVal)) (st : ApiState) (k : String) :
    Outcome → List String
  | .future _ => depsOf st k
  | .js (.errVal _) => depsOf st k
  | .js v => (dedup v).map Prod.fst

/-- The full entry setKey records under the written key. -/
def writtenEntry (dedup : JsVal → List (String × JsVal)) (st : ApiState) (k : String) :
    Outcome → Entry
  | .future p => ⟨slotGetMaybeError (entrySlot st k), some p, countOf st k, depsOf st k, none⟩
  | .js (.errVal e) => ⟨.thrower e, none, countOf st k, depsOf st k, none⟩
  | .js v => ⟨.plain v, none, countOf st k, (dedup v).map Prod.fst, none⟩

/-- One iteration of the scan loop of touchWithMatcher (lines 293-306):
the matcher sees each entry's last known value through getMaybeError;
zero-subscriber matches are deleted at once (cancelling their timer) and
subscribed matches are collected for refetch. -/
def touchScanStep (matcher : String → VSlot → Bool) (acc : ApiState × List String)
    (cacheKey : String) : ApiState × List String :=
  match alFind? acc.1.cache cacheKey with
  | none => acc
  | some item =>
      if matcher cacheKey (slotGetMaybeError item.value) = false then acc
      else if item.subscribersCount ≤ 0 then
        let st1 := clearEntryTimer acc.1 item.deletionTimeout
        ({ st1 with cache := alDelete st1.cache cacheKey }, acc.2)
      else (acc.1, acc.2 ++ [cacheKey])

/-- The scan phase of touchWithMatcher over the snapshot of all current
keys (line 293). -/
def touchScan (matcher : String → VSlot → Bool) (st : ApiState) : ApiState × List String :=
  (st.cache.map Prod.fst).foldl (touchScanStep matcher) (st, [])

/-- One iteration of the refetch-issuing loop (lines 308-341): start the
refresh (which will perform one GET for the key) and register the promise
under the key; the accumulator collects the subscriber notifications these
writes emit. -/
def markStep (dedup : JsVal → List (String × JsVal)) (acc : ApiState × List String)
    (k : String) : ApiState × List String :=
  let p := acc.1.nextPromiseId
  let st1 := { acc.1 with nextPromiseId := p + 1, requests := acc.1.requests ++ [(p, k)] }
  let r := setKey dedup st1 k (.future p)
  (r.1, acc.2 ++ r.2)

/-- The refetch-issuing phase of touchWithMatcher, before any result has
settled. -/
def touchMarkPending (dedup : JsVal → List (String × JsVal)) (st : ApiState)
    (ks : List String) : ApiState × List String :=
  ks.foldl (markStep dedup) (st, [])

/-- Everything touchWithMatcher does before its await of Promise.all:
scan and partition, then register one refetch promise per subscribed
match. -/
def touchBeforeSettle (dedup : JsVal → List (String × JsVal))
    (matcher : String → VSlot → Bool) (st : ApiState) : ApiState × List String :=
  let scanned := touchScan matcher st
  touchMarkPending dedup scanned.1 scanned.2

/-- One iteration of the commit loop (lines 344-346): write one settled
refetch result back, collecting the notifications it fires. -/
def commitStep (dedup : JsVal → List (String × JsVal)) (acc : ApiState × List String)
    (kv : String × JsVal) : ApiState × List String :=
  let r := setKey dedup acc.1 kv.1 (.js kv.2)
  (r.1, acc.2 ++ r.2)

/-- The commit phase of touchWithMatcher, run only after Promise.all has
delivered every refetch's result. -/
def touchCommit (dedup : JsVal → List (String × JsVal)) (st : ApiState)
    (kvs : List (String × JsVal)) : ApiState × List String :=
  kvs.foldl (commitStep dedup) (st, [])

/-- touchWithMatcher (lines 287-349) with the settled refetch results
given by the oracle fetch.  Returns the final state and the full list of
per-key subscriber notifications the call emitted, in order. -/
def touchWithMatcher (dedup : JsVal → List (String × JsVal))
    (matcher : String → VSlot → Bool) (fetch : String → FetchResult)
    (st : ApiState) : ApiState × List String :=
  let scanned := touchScan matcher st
  let marked := touchMarkPending dedup scanned.1 scanned.2
  let kvs := scanned.2.map (fun k => (k, fetchToVal (fetch k)))
  let committed := touchCommit dedup marked.1 kvs
  (committed.1, marked.2 ++ committed.2)

/-- deferRemoveKey (lines 458-481): arm a fresh deletion timer for the
key and record its handle on the entry (without cancelling a previously
recorded handle, as in the source). -/
def deferRemoveKey (st : ApiState) (key : String) : ApiState :=
  match alFind? st.cache key with
  | none => st
  | some item =>
      let tid := st.nextTimerId
      let it1 : Entry := ⟨item.value, item.promise, item.subscribersCount,
        item.dependentKeys, some tid⟩
      { st with nextTimerId := tid + 1,
                timers := st.timers ++ [(tid, key)],
                cache := alSet st.cache key it1 }

/-- One iteration of the cascade loop inside the timer callback
(lines 470-477): a dependent entry is deleted only if it currently has no
subscribers. -/
def cascadeStep (st : ApiState) (dk : String) : ApiState :=
  match alFind? st.cache dk with
  | none => st
  | some d =>
      if d.subscribersCount ≤ 0 then { st with cache := alDelete st.cache dk }
      else st

/-- Firing the armed timer tid: the setTimeout callback of deferRemoveKey
(lines 462-478) runs against the store as it is at firing time; the timer
is consumed by the runtime. -/
def fireTimer (st : ApiState) (tid : Nat) : ApiState :=
  match alFind? st.timers tid with
  | none => st
  | some key =>
      let st1 := { st with timers := alDelete st.timers tid }
      match alFind? st1.cache key with
      | none => st1
      | some item =>
          let st2 := { st1 with cache := alDelete st1.cache key }
          item.dependentKeys.foldl cascadeStep st2

/-- reset (lines 493-495): the cache binding is replaced by a fresh Map;
nothing else -- in particular no armed timer -- is touched. -/
def reset (st : ApiState) : ApiState :=
  { st with cache := [] }

/-- The traversal of save (lines 537-543): the forEach callback
destructures the entry's value, so reaching an entry in error state runs
its throwing getter and the exception escapes save. -/
def saveGo : List (String × Entry) → List (String × JsVal) →
    Except Nat (List (String × JsVal))
  | [], acc => .ok acc
  | (k, it) :: rest, acc =>
      match it.value with
      | .thrower e => .error e
      | .undef => saveGo rest acc
      | .plain v => saveGo rest (acc ++ [(k, v)])

/-- save (lines 537-543). -/
def save (st : ApiState) : Except Nat (List (String × JsVal)) :=
  saveGo st.cache []

/-- restore (lines 545-557): seed entries for keys not already present. -/
def restore (st : ApiState) (saveFile : List (String × JsVal)) : ApiState :=
  saveFile.foldl
    (fun st1 kv =>
      if (alFind? st1.cache kv.1).isSome then st1
      else { st1 with cache := alSet st1.cache kv.1 (seedEntry kv.2) })
    st

/-- The first stored error met when walking the store in order. -/
def firstStoredError : List (String × Entry) → Option Nat
  | [] => none
  | (_, it) :: rest =>
      match it.value with
      | .thrower e => some e
      | _ => firstStoredError rest

/-- The pairs of keys and materialized plain values, in store order. -/
def materializedPairs (l : List (String × Entry)) : List (String × JsVal) :=
  l.filterMap (fun p =>
    match p.2.value with
    | .plain v => some (p.1, v)
    | _ => none)

/-- Spec-side description of what save computes, for the amended claim:
the mapping of every key whose value slot is materialized (whether or not
a refetch is in flight for it), unless some entry is in error state, in
which case that stored error is raised. -/
def saveSpecModel (st : ApiState) : Except Nat (List (String × JsVal)) :=
  match firstStoredError st.cache with
  | some e => .error e
  | none => .ok (materializedPairs st.cache)

/-- The entry a fetch resolution writes into a store in which the key is
absent (the situation after a reset). -/
def freshResolvedEntry (dedup : JsVal → List (String × JsVal)) : FetchResult → Entry
  | .success (.errVal e) => ⟨.thrower e, none, 0, [], none⟩
  | .success v => ⟨.plain v, none, 0, (dedup v).map Prod.fst, none⟩
  | .notFound => ⟨.plain .null, none, 0, (dedup .null).map Prod.fst, none⟩
  | .failure e => ⟨.thrower e, none, 0, [], none⟩

/-- The per-reader interest bookkeeping of useApi: previousKeysRef and
keysRef (lines 364-365). -/
structure ApiReader where
  prevKeys : List String
  curKeys : List String
  deriving DecidableEq, Repr

/-- A freshly mounted reader. -/
def newApiReader : ApiReader := ⟨[], []⟩

/-- The top of every render pass (lines 370-371): keys left in keysRef by
a suspended previous pass are merged into previousKeys, then keysRef is
emptied. -/
def renderStart (r : ApiReader) : ApiReader :=
  ⟨r.curKeys.foldl addKeyOnce r.prevKeys, []⟩

/-- The newKeys increment of the commit-time layout effect (lines 419-426). -/
def incStep (st : ApiState) (k : String) : ApiState :=
  match alFind? st.cache k with
  | none => st
  | some it =>
      let it1 : Entry := ⟨it.value, it.promise, it.subscribersCount + 1,
        it.dependentKeys, it.deletionTimeout⟩
      { st with cache := alSet st.cache k it1 }

/-- The removedKeys decrement (lines 429-439), also used by the unmount
cleanup (lines 392-404): decrement and, at zero or below, arm deferred
removal. -/
def decStep (st : ApiState) (k : String) : ApiState :=
  match alFind? st.cache k with
  | none => st
  | some it =>
      let it1 : Entry := ⟨it.value, it.promise, it.subscribersCount - 1,
        it.dependentKeys, it.deletionTimeout⟩
      let st1 := { st with cache := alSet st.cache k it1 }
      if it1.subscribersCount ≤ 0 then deferRemoveKey st1 k else st1

/-- The commit-time layout effect of useApi (lines 408-442): diff the
pass's interest set against the previous one and apply the counter
updates. -/
def commitDiff (st : ApiState) (r : ApiReader) : ApiState × ApiReader :=
  let newKeys := r.curKeys.filter (fun k => decide (k ∉ r.prevKeys))
  let removedKeys := r.prevKeys.filter (fun k => decide (k ∉ r.curKeys))
  let st1 := newKeys.foldl incStep st
  let st2 := removedKeys.foldl decStep st1
  (st2, ⟨r.curKeys, r.curKeys⟩)

/-- Running the reads of one render pass in order: a read that raises
(a promise or an error) aborts the pass, which then does not commit. -/
def passAttempt (dedup : JsVal → List (String × JsVal)) :
    ApiState → ApiReader → List String → Bool × ApiState × ApiReader
  | st, r, [] => (true, st, r)
  | st, r, k :: rest =>
      match loadUrl dedup st k r.curKeys with
      | (.ret _, st1, ks) => passAttempt dedup st1 ⟨r.prevKeys, ks⟩ rest
      | (_, st1, ks) => (false, st1, ⟨r.prevKeys, ks⟩)

/-- One render pass of a mounted reader: merge-and-clear at render start,
run the reads; the layout-effect diff runs only if the pass completed
without raising. -/
def runPass (dedup : JsVal → List (String × JsVal)) (s : ApiState × ApiReader)
    (reads : List String) : ApiState × ApiReader :=
  let r0 := renderStart s.2
  match passAttempt dedup s.1 r0 reads with
  | (true, st1, r1) => commitDiff st1 r1
  | (false, st1, r1) => (st1, r1)

/-- The unmount cleanup of useApi (lines 389-405): drop interest in every
key of the last interest set. -/
def unmountReader (st : ApiState) (r : ApiReader) : ApiState :=
  r.curKeys.foldl decStep st

/-- The empty engine state of a fresh createApi call. -/
def initState : ApiState := ⟨[], [], 0, 0, []⟩

/-- The default deduplicationStrategy of createApi (line 64). -/
def dedup0 : JsVal → List (String × JsVal) := fun _ => []

/-- A matcher accepting every key, as produced for instance by the
substring form touch of an always-contained fragment. -/
def matcherAll : String → VSlot → Bool := fun _ _ => true

/-- Occurrence count of a key in a list. -/
def occCount (k : String) : List String → Nat
  | [] => 0
  | x :: t => (if x = k then 1 else 0) + occCount k t

/-- Trace: a first suspending read of the key k on the empty store. -/
def stLoadingK : ApiState := (loadUrl dedup0 initState "k" []).2.1

/-- Trace: that fetch resolves with the value 7. -/
def stLoadedK : ApiState := (resolveFetch dedup0 stLoadingK "k" (.success (.num 7))).1

/-- Trace: a mounted reader renders, reads k from cache and commits, so k
gains its subscriber. -/
def sReaderK : ApiState × ApiReader := runPass dedup0 (stLoadedK, newApiReader) ["k"]

/-- Trace: a touch matching k has issued its refetch but no result has
settled yet: the entry holds both the stale value 7 and the new in-flight
promise. -/
def stRefetchingK : ApiState := (touchBeforeSettle dedup0 matcherAll sReaderK.1).1

/-- Trace: a fetch of the key a fails with a non-404 error, leaving an
error-state entry in the store. -/
def stErrorA : ApiState :=
  (resolveFetch dedup0 (loadUrl dedup0 initState "a" []).2.1 "a" (.failure 5)).1

/-- Trace: the reader of sReaderK unmounts, dropping k to zero
subscribers, which arms deletion timer 0 for k. -/
def stArmedK : ApiState := unmountReader sReaderK.1 sReaderK.2

/-- Trace: reset is called while timer 0 is still armed. -/
def stResetK : ApiState := reset stArmedK

/-- Trace: the fresh store is re-seeded with a new value under the same
key k. -/
def stReseededK : ApiState := restore stResetK [("k", .num 2)]

/-- Trace: the timer armed before the reset fires against the fresh
store. -/
def stStaleFiredK : ApiState := fireTimer stReseededK 0

/-- Trace for the subscriber-count claim: from the empty store, a pass
reads k and suspends on the miss, and the following pass reads nothing
and commits. -/
def sNegativeK : ApiState × ApiReader :=
  runPass dedup0 (runPass dedup0 (initState, newApiReader) ["k"]) []

/-- A one-entry state with a subscribed cached value, used to witness the
touch theorems. -/
def stTouchW : ApiState := ⟨[("a", ⟨.plain (.num 1), none, 1, [], none⟩)], [], 0, 0, []⟩

/-- An oracle whose every refetch settles with the value 2. -/
def fetchW : String → FetchResult := fun _ => .success (.num 2)

/-- A one-entry state with a subscribed null value cached from a 404. -/
def stNullW : ApiState := ⟨[("k", ⟨.plain .null, none, 1, [], none⟩)], [], 0, 0, []⟩

/-- An oracle whose every refetch settles with HTTP 404. -/
def fetch404 : String → FetchResult := fun _ => .notFound

/-- A state with timer 0 armed for K, whose dependents are D (no
subscribers) and E (two subscribers); F is an unrelated zero-subscriber
entry. -/
def stTimerW : ApiState :=
  ⟨[("K", ⟨.plain (.num 0), none, 0, ["D", "E"], some 0⟩),
    ("D", ⟨.plain (.num 1), none, 0, [], none⟩),
    ("E", ⟨.plain (.num 2), none, 2, [], none⟩),
    ("F", ⟨.plain (.num 3), none, 0, [], none⟩)],
   [(0, "K")], 1, 0, []⟩

/-! ## Association-map lemmas -/

theorem alFind?_set_self {α β : Type} [DecidableEq α] (m : List (α × β)) (a : α) (b : β) :
    alFind? (alSet m a b) a = some b := by
  induction m with
  | nil => simp [alSet, alFind?]
  | cons h t ih =>
      obtain ⟨k, v⟩ := h
      by_cases hk : k = a
      · subst hk; simp [alSet, alFind?]
      · simp [alSet, alFind?, hk, ih]

theorem alFind?_set_ne {α β : Type} [DecidableEq α] (m : List (α × β)) (a a' : α) (b : β)
    (h : a' ≠ a) : alFind? (alSet m a b) a' = alFind? m a' := by
  induction m with
  | nil => simp [alSet, alFind?, Ne.symm h]
  | cons hd t ih =>
      obtain ⟨k, v⟩ := hd
      by_cases hk : k = a
      · subst hk
        simp [alSet, alFind?, Ne.symm h]
      · simp [alSet, alFind?, hk, ih]

theorem alFind?_delete_self {α β : Type} [DecidableEq α] (m : List (α × β)) (a : α) :
    alFind? (alDelete m a) a = none := by
  induction m with
  | nil => simp [alDelete, alFind?]
  | cons hd t ih =>
      obtain ⟨k, v⟩ := hd
      by_cases hk : k = a
      · simp [alDelete, hk, ih]
      · simp [alDelete, hk, alFind?, ih]

theorem alFind?_delete_ne {α β : Type} [DecidableEq α] (m : List (α × β)) (a a' : α)
    (h : a' ≠ a) : alFind? (alDelete m a) a' = alFind? m a' := by
  induction m with
  | nil => simp [alDelete, alFind?]
  | cons hd t ih =>
      obtain ⟨k, v⟩ := hd
      by_cases hk : k = a
      · subst hk
        simp [alDelete, alFind?, Ne.symm h, ih]
      · simp [alDelete, hk, alFind?, ih]

theorem alFind?_mem_keys {α β : Type} [DecidableEq α] (m : List (α × β)) (a : α) (b : β)
    (h : alFind? m a = some b) : a ∈ m.map Prod.fst := by
  induction m with
  | nil => simp [alFind?] at h
  | cons hd t ih =>
      obtain ⟨k, v⟩ := hd
      by_cases hk : k = a
      · subst hk; simp
      · simp only [alFind?, if_neg hk] at h
        simpa using Or.inr (ih h)

/-! ## Occurrence counts -/

theorem occCount_append (k : String) (l1 l2 : List String) :
    occCount k (l1 ++ l2) = occCount k l1 + occCount k l2 := by
  induction l1 with
  | nil => simp [occCount]
  | cons x t ih => simp [occCount, ih]; omega

theorem occCount_eq_zero_of_not_mem {k : String} {l : List String} (h : k ∉ l) :
    occCount k l = 0 := by
  induction l with
  | nil => rfl
  | cons x t ih =>
      simp only [List.mem_cons, not_or] at h
      simp [occCount, Ne.symm h.1, ih h.2]

theorem not_mem_of_occCount_eq_zero {k : String} {l : List String} (h : occCount k l = 0) :
    k ∉ l := by
  induction l with
  | nil => simp
  | cons x t ih =>
      simp only [occCount] at h
      by_cases hx : x = k
      · simp [hx] at h
      · have ht : occCount k t = 0 := by omega
        simp [List.mem_cons, ih ht, Ne.symm hx]

theorem occCount_eq_one_of_nodup_mem {k : String} {l : List String}
    (hn : l.Nodup) (hm : k ∈ l) : occCount k l = 1 := by
  induction l with
  | nil => simp at hm
  | cons x t ih =>
      rw [List.nodup_cons] at hn
      rcases List.mem_cons.mp hm with hx | ht
      · subst hx
        simp [occCount, occCount_eq_zero_of_not_mem hn.1]
      · have hxk : x ≠ k := by rintro rfl; exact hn.1 ht
        simp [occCount, hxk, ih hn.2 ht]

/-! ## Structural lemmas about the engine operations -/

theorem clearEntryTimer_cache (st : ApiState) (t : Option Nat) :
    (clearEntryTimer st t).cache = st.cache := by
  cases t <;> rfl

theorem seedKeys_timers (l : List (String × JsVal)) (st : ApiState) :
    (seedKeys st l).timers = st.timers := by
  induction l generalizing st with
  | nil => rfl
  | cons hd t ih =>
      obtain ⟨k, v⟩ := hd
      simp only [seedKeys]
      by_cases hk : (alFind? st.cache k).isSome <;> simp [hk, ih]

theorem seed_keeps_present (l : List (String × JsVal)) (st : ApiState) (j : String)
    (e : Entry) (hj : alFind? st.cache j = some e) :
    alFind? (seedKeys st l).cache j = some e := by
  induction l generalizing st with
  | nil => exact hj
  | cons hd t ih =>
      obtain ⟨k, v⟩ := hd
      simp only [seedKeys]
      by_cases hk : (alFind? st.cache k).isSome
      · simpa [hk] using ih st hj
      · have hjk : j ≠ k := by
          rintro rfl; rw [hj] at hk; simp at hk
        refine ih _ ?_
        simpa [hk, alFind?_set_ne _ _ _ _ hjk] using hj

theorem writtenEntry_count (dedup : JsVal → List (String × JsVal)) (st : ApiState)
    (k : String) (out : Outcome) :
    (writtenEntry dedup st k out).subscribersCount = countOf st k := by
  cases out with
  | future p => rfl
  | js v => cases v <;> rfl

theorem writtenEntry_timeout (dedup : JsVal → List (String × JsVal)) (st : ApiState)
    (k : String) (out : Outcome) :
    (writtenEntry dedup st k out).deletionTimeout = none := by
  cases out with
  | future p => rfl
  | js v => cases v <;> rfl

theorem writtenEntry_deps (dedup : JsVal → List (String × JsVal)) (st : ApiState)
    (k : String) (out : Outcome) :
    (writtenEntry dedup st k out).dependentKeys = depsAfterWrite dedup st k out := by
  cases out with
  | future p => rfl
  | js v => cases v <;> rfl

theorem setKey_self (dedup : JsVal → List (String × JsVal)) (st : ApiState) (k : String)
    (out : Outcome) :
    alFind? (setKey dedup st k out).1.cache k = some (writtenEntry dedup st k out) := by
  cases out with
  | future p =>
      cases h : alFind? st.cache k <;>
        simp [setKey, writtenEntry, entrySlot, countOf, depsOf, h, clearEntryTimer_cache,
          alFind?_set_self, slotGetMaybeError]
  | js v =>
      cases v with
      | errVal e =>
          cases h : alFind? st.cache k <;>
            simp [setKey, writtenEntry, entrySlot, countOf, depsOf, h, clearEntryTimer_cache,
              alFind?_set_self]
      | null =>
          cases h : alFind? st.cache k <;>
          · simp only [setKey, h, writtenEntry]
            refine seed_keeps_present _ _ _ _ ?_
            simp [entrySlot, countOf, depsOf, h, clearEntryTimer_cache, alFind?_set_self]
      | num n =>
          cases h : alFind? st.cache k <;>
          · simp only [setKey, h, writtenEntry]
            refine seed_keeps_present _ _ _ _ ?_
            simp [entrySlot, countOf, depsOf, h, clearEntryTimer_cache, alFind?_set_self]

theorem setKey_keeps_other (dedup : JsVal → List (String × JsVal)) (st : ApiState)
    (k : String) (out : Outcome) (j : String) (e : Entry)
    (hj : alFind? st.cache j = some e) (hjk : j ≠ k) :
    alFind? (setKey dedup st k out).1.cache j = some e := by
  cases out with
  | future p =>
      cases h : alFind? st.cache k <;>
        simp [setKey, h, clearEntryTimer_cache, alFind?_set_ne _ _ _ _ hjk, hj]
  | js v =>
      cases v with
      | errVal e' =>
          cases h : alFind? st.cache k <;>
            simp [setKey, h, clearEntryTimer_cache, alFind?_set_ne _ _ _ _ hjk, hj]
      | null =>
          cases h : alFind? st.cache k <;>
          · simp only [setKey, h]
            refine seed_keeps_present _ _ _ _ ?_
            simp [clearEntryTimer_cache, alFind?_set_ne _ _ _ _ hjk, hj]
      | num n =>
          cases h : alFind? st.cache k <;>
          · simp only [setKey, h]
            refine seed_keeps_present _ _ _ _ ?_
            simp [clearEntryTimer_cache, alFind?_set_ne _ _ _ _ hjk, hj]

theorem setKey_notes (dedup : JsVal → List (String × JsVal)) (st : ApiState) (k : String)
    (out : Outcome) : (setKey dedup st k out).2 = expectedNotes k out := by
  cases out with
  | future p => cases h : alFind? st.cache k <;> simp [setKey, expectedNotes, h]
  | js v =>
      cases v <;> (cases h : alFind? st.cache k <;> simp [setKey, expectedNotes, h])

theorem setKey_timers (dedup : JsVal → List (String × JsVal)) (st : ApiState) (k : String)
    (out : Outcome) :
    (setKey dedup st k out).1.timers = (clearEntryTimer st (entryTimerOf st k)).timers := by
  cases out with
  | future p => cases h : alFind? st.cache k <;> simp [setKey, entryTimerOf, h]
  | js v =>
      cases v <;>
        (cases h : alFind? st.cache k <;> simp [setKey, entryTimerOf, h, seedKeys_timers])

theorem countOf_setKey (dedup : JsVal → List (String × JsVal)) (st : ApiState) (k : String)
    (out : Outcome) : countOf (setKey dedup st k out).1 k = countOf st k := by
  have h := setKey_self dedup st k out
  simp [countOf, h, writtenEntry_count]

theorem clearEntryTimer_nextPromiseId (st : ApiState) (t : Option Nat) :
    (clearEntryTimer st t).nextPromiseId = st.nextPromiseId := by
  cases t <;> rfl

theorem countOf_clearEntryTimer (st : ApiState) (t : Option Nat) (k : String) :
    countOf (clearEntryTimer st t) k = countOf st k := by
  simp [countOf, clearEntryTimer_cache]

theorem startFetch_facts (dedup : JsVal → List (String × JsVal)) (st : ApiState)
    (k : String) (ks : List String) :
    (startFetch dedup st k ks).1 = .raisePending st.nextPromiseId ∧
    countOf (startFetch dedup st k ks).2.1 k = countOf st k ∧
    (alFind? (startFetch dedup st k ks).2.1.cache k).isSome = true ∧
    (startFetch dedup st k ks).2.2 = ks := by
  refine ⟨rfl, ?_, ?_, rfl⟩
  · simpa [countOf] using
      countOf_setKey dedup
        { st with nextPromiseId := st.nextPromiseId + 1,
                  requests := st.requests ++ [(st.nextPromiseId, k)] }
        k (.future st.nextPromiseId)
  · simp [startFetch, setKey_self]

theorem loadUrl_undef (dedup : JsVal → List (String × JsVal)) (st : ApiState) (k : String)
    (ks : List String) (h : entrySlot st k = .undef) :
    (loadUrl dedup st k ks).1
        = .raisePending ((entryPromiseOf st k).getD st.nextPromiseId) ∧
    countOf (loadUrl dedup st k ks).2.1 k = countOf st k ∧
    (alFind? (loadUrl dedup st k ks).2.1.cache k).isSome = true ∧
    (loadUrl dedup st k ks).2.2 = addKeyOnce ks k := by
  rcases hx : alFind? st.cache k with _ | it
  · simp only [loadUrl, hx]
    simpa [entryPromiseOf, hx] using startFetch_facts dedup st k (addKeyOnce ks k)
  · have hv : it.value = .undef := by simpa [entrySlot, hx] using h
    rcases hp : it.promise with _ | p
    · simp only [loadUrl, hx, hv, hp]
      have hsf := startFetch_facts dedup (clearEntryTimer st it.deletionTimeout) k
        (addKeyOnce ks k)
      simpa [entryPromiseOf, hx, hp, clearEntryTimer_nextPromiseId,
        countOf_clearEntryTimer] using hsf
    · simp [loadUrl, hx, hv, hp, entryPromiseOf, countOf_clearEntryTimer,
        clearEntryTimer_cache, countOf]

theorem deferRemoveKey_countOf (st : ApiState) (k : String) :
    countOf (deferRemoveKey st k) k = countOf st k := by
  rcases hx : alFind? st.cache k with _ | it
  · simp [deferRemoveKey, hx]
  · simp [deferRemoveKey, hx, countOf, alFind?_set_self]

theorem countOf_decStep (st : ApiState) (k : String)
    (h : (alFind? st.cache k).isSome = true) :
    countOf (decStep st k) k = countOf st k - 1 := by
  rcases hx : alFind? st.cache k with _ | it
  · rw [hx] at h; simp at h
  · simp only [decStep, hx]
    by_cases hc : it.subscribersCount - 1 ≤ 0
    · simp only [hc, if_pos]
      rw [deferRemoveKey_countOf]
      simp [countOf, alFind?_set_self, hx]
    · simp only [hc, if_neg, ite_false]
      simp [countOf, alFind?_set_self, hx]

theorem runPass_suspends (dedup : JsVal → List (String × JsVal)) (st : ApiState)
    (k : String) (h : entrySlot st k = .undef) :
    runPass dedup (st, newApiReader) [k] = ((loadUrl dedup st k []).2.1, ⟨[], [k]⟩) := by
  obtain ⟨h1, _, _, h4⟩ := loadUrl_undef dedup st k [] h
  rcases hl : loadUrl dedup st k [] with ⟨res, st1, ks⟩
  rw [hl] at h1 h4
  simp only at h1 h4
  subst h1
  have hek : addKeyOnce [] k = [k] := by simp [addKeyOnce]
  rw [hek] at h4
  subst h4
  simp [runPass, renderStart, passAttempt, newApiReader, hl]

theorem runPass_empty_drop (dedup : JsVal → List (String × JsVal)) (st : ApiState)
    (k : String) :
    runPass dedup ((st, ⟨[], [k]⟩) : ApiState × ApiReader) []
      = (decStep st k, ⟨[], []⟩) := by
  simp [runPass, renderStart, passAttempt, commitDiff, addKeyOnce]

theorem clearEntryTimer_requests (st : ApiState) (t : Option Nat) :
    (clearEntryTimer st t).requests = st.requests := by
  cases t <;> rfl

theorem seedKeys_requests (l : List (String × JsVal)) (st : ApiState) :
    (seedKeys st l).requests = st.requests := by
  induction l generalizing st with
  | nil => rfl
  | cons hd t ih =>
      obtain ⟨k, v⟩ := hd
      simp only [seedKeys]
      by_cases hk : (alFind? st.cache k).isSome <;> simp [hk, ih]

theorem setKey_requests (dedup : JsVal → List (String × JsVal)) (st : ApiState)
    (k : String) (out : Outcome) : (setKey dedup st k out).1.requests = st.requests := by
  cases out with
  | future p =>
      cases h : alFind? st.cache k <;> simp [setKey, h, clearEntryTimer_requests]
  | js v =>
      cases v <;>
        (cases h : alFind? st.cache k <;>
          simp [setKey, h, clearEntryTimer_requests, seedKeys_requests])

theorem loadUrl_fresh (dedup : JsVal → List (String × JsVal)) (st : ApiState) (k : String)
    (ks : List String) (h1 : entrySlot st k = .undef) (h2 : entryPromiseOf st k = none) :
    alFind? (loadUrl dedup st k ks).2.1.cache k
        = some ⟨.undef, some st.nextPromiseId, countOf st k, depsOf st k, none⟩ ∧
    (loadUrl dedup st k ks).2.1.requests = st.requests ++ [(st.nextPromiseId, k)] := by
  rcases hx : alFind? st.cache k with _ | it
  · simp only [loadUrl, hx, startFetch]
    constructor
    · rw [setKey_self]
      simp [writtenEntry, entrySlot, countOf, depsOf, hx, slotGetMaybeError]
    · rw [setKey_requests]
  · have hv : it.value = .undef := by simpa [entrySlot, hx] using h1
    have hp : it.promise = none := by simpa [entryPromiseOf, hx] using h2
    simp only [loadUrl, hx, hv, hp, startFetch]
    constructor
    · rw [setKey_self]
      simp [writtenEntry, entrySlot, countOf, depsOf, hx, hv, clearEntryTimer_cache,
        slotGetMaybeError, clearEntryTimer_nextPromiseId]
    · rw [setKey_requests]
      simp [clearEntryTimer_requests, clearEntryTimer_nextPromiseId]

theorem loadUrl_bare_pending (dedup : JsVal → List (String × JsVal)) (st : ApiState)
    (k : String) (ks : List String) (p : Nat) (cnt : Int) (deps : List String)
    (h : alFind? st.cache k = some ⟨.undef, some p, cnt, deps, none⟩) :
    loadUrl dedup st k ks = (.raisePending p, st, addKeyOnce ks k) := by
  simp [loadUrl, h, clearEntryTimer]

theorem loadUrl_plain_hit (dedup : JsVal → List (String × JsVal)) (st : ApiState)
    (k : String) (ks : List String) (v : JsVal) (pr : Option Nat) (cnt : Int)
    (deps : List String) (h : alFind? st.cache k = some ⟨.plain v, pr, cnt, deps, none⟩) :
    loadUrl dedup st k ks = (.ret v, st, addKeyOnce ks k) := by
  simp [loadUrl, h, clearEntryTimer]

theorem resolve_success_entry (dedup : JsVal → List (String × JsVal)) (st : ApiState)
    (k : String) (v : JsVal) (hv : JsVal.isErrorObj v = false) :
    alFind? (resolveFetch dedup st k (.success v)).1.cache k
      = some ⟨.plain v, none, countOf st k, (dedup v).map Prod.fst, none⟩ := by
  cases v with
  | errVal e => simp [JsVal.isErrorObj] at hv
  | null => simp [resolveFetch, setKey_self, writtenEntry]
  | num n => simp [resolveFetch, setKey_self, writtenEntry]

/-- Claim C2: while k has no cached value and no resolved fetch, a first
read creates the fetch promise and records exactly one network request; a
second read before resolution issues no further request -- it re-raises
the very same promise and leaves the state untouched; after the fetch
resolves, retried reads both observe the identical cached value and still
no further request is recorded. -/
theorem coalesced_reads (dedup : JsVal → List (String × JsVal)) (st : ApiState)
    (k : String) (ks1 ks2 ks3 ks4 : List String) (v : JsVal)
    (h1 : entrySlot st k = .undef) (h2 : entryPromiseOf st k = none)
    (hv : JsVal.isErrorObj v = false) :
    (loadUrl dedup st k ks1).1 = .raisePending st.nextPromiseId ∧
    (loadUrl dedup (loadUrl dedup st k ks1).2.1 k ks2).1
        = .raisePending st.nextPromiseId ∧
    (loadUrl dedup (loadUrl dedup st k ks1).2.1 k ks2).2.1
        = (loadUrl dedup st k ks1).2.1 ∧
    (loadUrl dedup st k ks1).2.1.requests = st.requests ++ [(st.nextPromiseId, k)] ∧
    (loadUrl dedup (resolveFetch dedup (loadUrl dedup st k ks1).2.1 k (.success v)).1
        k ks3).1 = .ret v ∧
    (loadUrl dedup (resolveFetch dedup (loadUrl dedup st k ks1).2.1 k (.success v)).1
        k ks4).1 = .ret v ∧
    (loadUrl dedup (resolveFetch dedup (loadUrl dedup st k ks1).2.1 k (.success v)).1
        k ks3).2.1.requests = (loadUrl dedup st k ks1).2.1.requests := by
  obtain ⟨hA, hAreq⟩ := loadUrl_fresh dedup st k ks1 h1 h2
  have hr1 : (loadUrl dedup st k ks1).1 = .raisePending st.nextPromiseId := by
    have h0 := (loadUrl_undef dedup st k ks1 h1).1
    rw [h2] at h0
    exact h0
  have h2nd := loadUrl_bare_pending dedup (loadUrl dedup st k ks1).2.1 k ks2
    st.nextPromiseId _ _ hA
  have hres := resolve_success_entry dedup (loadUrl dedup st k ks1).2.1 k v hv
  have hr3 := loadUrl_plain_hit dedup _ k ks3 v _ _ _ hres
  have hr4 := loadUrl_plain_hit dedup _ k ks4 v _ _ _ hres
  refine ⟨hr1, ?_, ?_, hAreq, ?_, ?_, ?_⟩
  · rw [h2nd]
  · rw [h2nd]
  · rw [hr3]
  · rw [hr4]
  · rw [hr3]
    simp [resolveFetch, setKey_requests]

/-- Witness for C2: two reads of k on the empty store raise the same
promise 0, record the single request (0, k), and after resolution to the
value 7 both retried reads return that value. -/
theorem coalesced_reads_w :
    entrySlot initState "k" = .undef ∧
    entryPromiseOf initState "k" = none ∧
    JsVal.isErrorObj (.num 7) = false ∧
    (loadUrl dedup0 initState "k" []).1 = .raisePending 0 ∧
    (loadUrl dedup0 (loadUrl dedup0 initState "k" []).2.1 "k" []).1 = .raisePending 0 ∧
    (loadUrl dedup0 initState "k" []).2.1.requests = [(0, "k")] ∧
    (loadUrl dedup0 (resolveFetch dedup0 (loadUrl dedup0 initState "k" []).2.1 "k"
        (.success (.num 7))).1 "k" []).1 = .ret (.num 7) := by
  have h := coalesced_reads dedup0 initState "k" [] [] [] [] (.num 7) rfl rfl rfl
  exact ⟨rfl, rfl, rfl, h.1, h.2.1, h.2.2.2.1, h.2.2.2.2.1⟩

/-- Claim C3 (amended): in suspending mode, a read of a key whose entry is
Empty, or Pending without a previously materialized value, does not
return: it raises the existing in-flight promise, or the newly created
one on a miss.  A Pending entry that still holds a previously
materialized value instead returns that stale value, as the
counterexample shows. -/
theorem read_empty_or_bare_pending_raises (dedup : JsVal → List (String × JsVal))
    (st : ApiState) (k : String) (ks : List String) (h : entrySlot st k = .undef) :
    (loadUrl dedup st k ks).1
      = .raisePending ((entryPromiseOf st k).getD st.nextPromiseId) :=
  (loadUrl_undef dedup st k ks h).1

/-- Witness for the amended C3 theorem: on the empty store a read of k
raises the newly created promise 0. -/
theorem read_empty_or_bare_pending_raises_w :
    entrySlot initState "k" = .undef ∧
    (loadUrl dedup0 initState "k" []).1 = .raisePending 0 :=
  ⟨rfl, read_empty_or_bare_pending_raises dedup0 initState "k" [] rfl⟩

/-- Claim C3 counterexample: after a touch has issued its refetch for the
subscribed key k (a reachable state, built from the empty store by a
read, its resolution to the value 7, a committed render pass, and the
pre-settle phase of a touch), the entry is Pending with promise 1 in
flight, yet a suspending read returns the stale value 7 instead of
raising the in-flight promise. -/
theorem pending_with_value_read_returns :
    entryPromiseOf stRefetchingK "k" = some 1 ∧
    (loadUrl dedup0 stRefetchingK "k" []).1 = .ret (.num 7) := ⟨rfl, rfl⟩

/-- Claim C5: every write through setKey stores an entry that keeps the
key's previous subscriber count and a cleared deletionTimeout field,
cancels any armed runtime deletion timer, notifies no listener for a
future write and notifies exactly the written key for a value or error
write, and records dependentKeys recomputed in full from the new value on
a successful value write (carried over on future and error writes), as
depsAfterWrite states. -/
theorem setKey_contract (dedup : JsVal → List (String × JsVal)) (st : ApiState)
    (k : String) (out : Outcome) :
    alFind? (setKey dedup st k out).1.cache k = some (writtenEntry dedup st k out) ∧
    countOf (setKey dedup st k out).1 k = countOf st k ∧
    (alFind? (setKey dedup st k out).1.cache k).map Entry.deletionTimeout = some none ∧
    Option.all (fun t => (alFind? (setKey dedup st k out).1.timers t).isNone)
      (entryTimerOf st k) = true ∧
    (setKey dedup st k out).2 = expectedNotes k out ∧
    (alFind? (setKey dedup st k out).1.cache k).map Entry.dependentKeys
      = some (depsAfterWrite dedup st k out) := by
  refine ⟨setKey_self dedup st k out, countOf_setKey dedup st k out, ?_, ?_,
    setKey_notes dedup st k out, ?_⟩
  · simp [setKey_self, writtenEntry_timeout]
  · rw [setKey_timers]
    cases h : entryTimerOf st k with
    | none => rfl
    | some t => simp [clearEntryTimer, alFind?_delete_self]
  · simp [setKey_self, writtenEntry_deps]

/-- Traversal lemma for save: the loop yields the first stored error if
one exists, and otherwise the accumulated materialized pairs. -/
theorem saveGo_spec (l : List (String × Entry)) (acc : List (String × JsVal)) :
    saveGo l acc = (match firstStoredError l with
      | some e => .error e
      | none => .ok (acc ++ materializedPairs l)) := by
  induction l generalizing acc with
  | nil => simp [saveGo, firstStoredError, materializedPairs]
  | cons hd t ih =>
      obtain ⟨k, it⟩ := hd
      cases hv : it.value with
      | thrower e => simp [saveGo, hv, firstStoredError]
      | undef =>
          simp only [saveGo, hv, firstStoredError]
          rw [ih]
          cases firstStoredError t <;> simp [materializedPairs, List.filterMap_cons, hv]
      | plain v =>
          simp only [saveGo, hv, firstStoredError]
          rw [ih]
          cases firstStoredError t <;> simp [materializedPairs, List.filterMap_cons, hv]

/-- Claim C7 (amended): save returns the mapping of exactly the keys
whose value slot holds a materialized value -- including entries whose
refetch is still in flight but which retain a previous value -- unless
some entry is in error state, in which case save raises that entry's
stored error instead of returning. -/
theorem save_eq_specModel (st : ApiState) : save st = saveSpecModel st := by
  rw [save, saveSpecModel, saveGo_spec]
  cases firstStoredError st.cache <;> simp

/-- Claim C7 counterexample: save raises the stored error of an
error-state entry instead of skipping it, and it exports the stale value
of the key k even though k's refetch promise 1 is still in flight; both
states are reached from the empty store through the engine operations. -/
theorem save_raises_and_exports_pending :
    save stErrorA = .error 5 ∧
    entryPromiseOf stRefetchingK "k" = some 1 ∧
    save stRefetchingK = .ok [("k", .num 7)] := ⟨rfl, rfl, rfl⟩

/-- Claim C8 (amended): reset replaces the store with a fresh empty map
but cancels nothing: every armed deletion timer stays armed, and an
in-flight fetch is not cancelled either -- its eventual resolution writes
its outcome into the fresh store under the same key. -/
theorem reset_semantics (st : ApiState) (dedup : JsVal → List (String × JsVal))
    (k : String) (r : FetchResult) :
    (reset st).cache = [] ∧
    (reset st).timers = st.timers ∧
    alFind? (resolveFetch dedup (reset st) k r).1.cache k
      = some (freshResolvedEntry dedup r) := by
  refine ⟨rfl, rfl, ?_⟩
  cases r with
  | success v =>
      cases v <;>
        simp [resolveFetch, setKey_self, writtenEntry, freshResolvedEntry, countOf,
          depsOf, entrySlot, reset, alFind?]
  | notFound =>
      simp [resolveFetch, setKey_self, writtenEntry, freshResolvedEntry, countOf,
        depsOf, entrySlot, reset, alFind?]
  | failure e =>
      simp [resolveFetch, setKey_self, writtenEntry, freshResolvedEntry, countOf,
        depsOf, entrySlot, reset, alFind?]

/-- Claim C8 counterexample: a deletion timer armed before reset survives
it (reset leaves the timer table untouched); once the fresh store holds a
new entry under the same key, the stale timer fires and deletes it.  The
whole trace is reached from the empty store through the engine
operations. -/
theorem stale_timer_deletes_after_reset :
    stResetK.cache = [] ∧
    stResetK.timers = [(0, "k")] ∧
    (alFind? stReseededK.cache "k").isSome = true ∧
    alFind? stStaleFiredK.cache "k" = none := ⟨rfl, rfl, rfl, rfl⟩

/-- Claim C9 (amended): subscriber counts are mutated only by the
commit-time diff of a render pass and by unsubscription, but they can go
below zero: a key read by a pass that suspends is merged into the
previous-keys set without ever having been incremented, so a following
committed pass that does not read it decrements the count -- one below
whatever it was, hence negative for a previously unsubscribed key. -/
theorem suspended_pass_decrements (dedup : JsVal → List (String × JsVal))
    (st : ApiState) (k : String) (h : entrySlot st k = .undef) :
    countOf (runPass dedup (runPass dedup (st, newApiReader) [k]) []).1 k
      = countOf st k - 1 := by
  obtain ⟨_, h2, h3, _⟩ := loadUrl_undef dedup st k [] h
  rw [runPass_suspends dedup st k h, runPass_empty_drop]
  rw [countOf_decStep _ _ h3, h2]

/-- Witness for the amended C9 theorem: on the empty store the
suspend-then-commit pair of passes leaves k at count 0 - 1. -/
theorem suspended_pass_decrements_w :
    entrySlot initState "k" = .undef ∧
    countOf (runPass dedup0 (runPass dedup0 (initState, newApiReader) ["k"]) []).1 "k"
      = countOf initState "k" - 1 :=
  ⟨rfl, suspended_pass_decrements dedup0 initState "k" rfl⟩

/-- Claim C9 counterexample: starting from the empty store, a pass that
reads k and suspends on the miss followed by a committed pass that reads
nothing drives k's subscriber count to -1, a negative reachable count. -/
theorem subscriber_count_goes_negative :
    countOf sNegativeK.1 "k" = -1 ∧ countOf sNegativeK.1 "k" < 0 := by
  constructor <;> decide

/-! ## Cascade-deletion lemmas for the timer callback -/

theorem cascadeFold_none (ds : List String) (st : ApiState) (j : String)
    (hj : alFind? st.cache j = none) :
    alFind? (ds.foldl cascadeStep st).cache j = none := by
  induction ds generalizing st with
  | nil => exact hj
  | cons x t ih =>
      refine ih _ ?_
      rcases hx : alFind? st.cache x with _ | d
      · simpa [cascadeStep, hx] using hj
      · by_cases hc : d.subscribersCount ≤ 0
        · by_cases hxj : j = x
          · subst hxj; simp [cascadeStep, hx, hc, alFind?_delete_self]
          · simp [cascadeStep, hx, hc, alFind?_delete_ne _ _ _ hxj, hj]
        · simpa [cascadeStep, hx, hc] using hj

theorem cascadeFold_lookup (ds : List String) (st : ApiState) (j : String) (e : Entry)
    (hj : alFind? st.cache j = some e) :
    alFind? (ds.foldl cascadeStep st).cache j
      = if j ∈ ds ∧ e.subscribersCount ≤ 0 then none else some e := by
  induction ds generalizing st with
  | nil => simpa using hj
  | cons x t ih =>
      by_cases hxj : x = j
      · subst hxj
        by_cases hc : e.subscribersCount ≤ 0
        · have hstep : alFind? (cascadeStep st x).cache x = none := by
            simp [cascadeStep, hj, hc, alFind?_delete_self]
          rw [List.foldl_cons]
          rw [cascadeFold_none t _ _ hstep]
          simp [hc]
        · have hstep : cascadeStep st x = st := by simp [cascadeStep, hj, hc]
          rw [List.foldl_cons, hstep, ih st hj]
          simp [hc]
      · have hkeep : alFind? (cascadeStep st x).cache j = some e := by
          rcases hx : alFind? st.cache x with _ | d
          · simpa [cascadeStep, hx] using hj
          · by_cases hc : d.subscribersCount ≤ 0
            · simp [cascadeStep, hx, hc, alFind?_delete_ne _ _ _ (Ne.symm hxj), hj]
            · simpa [cascadeStep, hx, hc] using hj
        rw [List.foldl_cons, ih _ hkeep]
        simp [List.mem_cons, Ne.symm hxj]

theorem cascadeFold_not_mem (ds : List String) (st : ApiState) (j : String)
    (hj : j ∉ ds) : alFind? (ds.foldl cascadeStep st).cache j = alFind? st.cache j := by
  induction ds generalizing st with
  | nil => rfl
  | cons x t ih =>
      simp only [List.mem_cons, not_or] at hj
      rw [List.foldl_cons, ih _ hj.2]
      rcases hx : alFind? st.cache x with _ | d
      · simp [cascadeStep, hx]
      · by_cases hc : d.subscribersCount ≤ 0
        · simp [cascadeStep, hx, hc, alFind?_delete_ne _ _ _ hj.1]
        · simp [cascadeStep, hx, hc]

theorem fireTimer_eq_fold (st : ApiState) (tid : Nat) (K : String) (kE : Entry)
    (hT : alFind? st.timers tid = some K) (hK : alFind? st.cache K = some kE) :
    fireTimer st tid
      = kE.dependentKeys.foldl cascadeStep
          { st with timers := alDelete st.timers tid, cache := alDelete st.cache K } := by
  simp [fireTimer, hT, hK]

/-- Claim C10: when K's deletion timer fires, the removal is exactly one
level deep: K is removed; a direct dependent of K, with its entry as
recorded at firing time, is removed precisely when its subscriber count
is at most zero and is left bound to the same entry otherwise; and every
key that is neither K nor a direct dependent of K -- including any
dependent of a removed dependent -- keeps exactly the binding it had. -/
theorem timer_fires_one_level (st : ApiState) (tid : Nat) (K : String) (kE : Entry)
    (hT : alFind? st.timers tid = some K) (hK : alFind? st.cache K = some kE) :
    alFind? (fireTimer st tid).cache K = none ∧
    (∀ j, j ≠ K → j ∉ kE.dependentKeys →
        alFind? (fireTimer st tid).cache j = alFind? st.cache j) ∧
    (∀ j e, j ≠ K → j ∈ kE.dependentKeys → alFind? st.cache j = some e →
        alFind? (fireTimer st tid).cache j
          = (if e.subscribersCount ≤ 0 then none else some e)) := by
  have hfe := fireTimer_eq_fold st tid K kE hT hK
  refine ⟨?_, ?_, ?_⟩
  · rw [hfe]
    exact cascadeFold_none _ _ _ (by simp [alFind?_delete_self])
  · intro j hjK hjd
    rw [hfe, cascadeFold_not_mem _ _ _ hjd]
    simp [alFind?_delete_ne _ _ _ hjK]
  · intro j e hjK hjd hje
    rw [hfe, cascadeFold_lookup _ _ _ e
      (by simp [alFind?_delete_ne _ _ _ hjK, hje])]
    simp [hjd]

/-- Witness for C10: firing timer 0 removes K and its zero-subscriber
dependent D, while the unrelated zero-subscriber entry F keeps its
binding. -/
theorem timer_fires_one_level_w :
    alFind? stTimerW.timers 0 = some "K" ∧
    alFind? (fireTimer stTimerW 0).cache "K" = none ∧
    alFind? (fireTimer stTimerW 0).cache "F" = alFind? stTimerW.cache "F" ∧
    alFind? (fireTimer stTimerW 0).cache "D" = none := by
  have h := timer_fires_one_level stTimerW 0 "K"
    ⟨.plain (.num 0), none, 0, ["D", "E"], some 0⟩ (by decide) (by decide)
  refine ⟨by decide, h.1, h.2.1 "F" (by decide) (by decide), ?_⟩
  have hD := h.2.2 "D" ⟨.plain (.num 1), none, 0, [], none⟩ (by decide) (by decide)
    (by decide)
  simpa using hD

/-- Claim C6: when K's deletion timer fires, K's entry is removed; a
direct dependent D whose recorded entry has the nonnegative subscriber
count of every reachable state is removed if and only if that count is 0
at that moment, and it survives with its entry unchanged when the count
is positive. -/
theorem timer_cascade_zero_subscribers (st : ApiState) (tid : Nat) (K D : String)
    (kE dE : Entry) (hT : alFind? st.timers tid = some K)
    (hK : alFind? st.cache K = some kE) (hD : D ∈ kE.dependentKeys) (hDK : D ≠ K)
    (hDe : alFind? st.cache D = some dE) (hnn : 0 ≤ dE.subscribersCount) :
    alFind? (fireTimer st tid).cache K = none ∧
    (alFind? (fireTimer st tid).cache D = none ↔ dE.subscribersCount = 0) ∧
    (0 < dE.subscribersCount → alFind? (fireTimer st tid).cache D = some dE) := by
  have hfe := fireTimer_eq_fold st tid K kE hT hK
  have hcas := cascadeFold_lookup kE.dependentKeys
    { st with timers := alDelete st.timers tid, cache := alDelete st.cache K } D dE
    (by simp [alFind?_delete_ne _ _ _ hDK, hDe])
  refine ⟨?_, ?_, ?_⟩
  · rw [hfe]
    exact cascadeFold_none _ _ _ (by simp [alFind?_delete_self])
  · rw [hfe, hcas]
    by_cases hc : dE.subscribersCount ≤ 0
    · have hz : dE.subscribersCount = 0 := le_antisymm hc hnn
      simp [hD, hc, hz]
    · have hz : ¬dE.subscribersCount = 0 := by omega
      simp [hD, hc, hz]
  · intro hpos
    have hc : ¬dE.subscribersCount ≤ 0 := by omega
    rw [hfe, hcas]
    simp [hD, hc]

/-- Witness for C6: in stTimerW the dependent D has count 0 and is
removed when the timer fires, the dependent E has count 2 and survives
with its entry unchanged. -/
theorem timer_cascade_zero_subscribers_w :
    alFind? stTimerW.timers 0 = some "K" ∧
    alFind? (fireTimer stTimerW 0).cache "K" = none ∧
    (alFind? (fireTimer stTimerW 0).cache "D" = none ↔ (0 : Int) = 0) ∧
    alFind? (fireTimer stTimerW 0).cache "E"
      = some ⟨.plain (.num 2), none, 2, [], none⟩ := by
  have hD := timer_cascade_zero_subscribers stTimerW 0 "K" "D"
    ⟨.plain (.num 0), none, 0, ["D", "E"], some 0⟩ ⟨.plain (.num 1), none, 0, [], none⟩
    (by decide) (by decide) (by decide) (by decide) (by decide) (by decide)
  have hE := timer_cascade_zero_subscribers stTimerW 0 "K" "E"
    ⟨.plain (.num 0), none, 0, ["D", "E"], some 0⟩ ⟨.plain (.num 2), none, 2, [], none⟩
    (by decide) (by decide) (by decide) (by decide) (by decide) (by decide)
  exact ⟨by decide, hD.1, hD.2.1, hE.2.2 (by decide)⟩

/-! ## Touch-pipeline lemmas -/

theorem slotGetMaybeError_idem (s : VSlot) :
    slotGetMaybeError (slotGetMaybeError s) = slotGetMaybeError s := by
  cases s <;> rfl

theorem map_fst_pair (F : String → JsVal) (ks : List String) :
    (ks.map (fun k => (k, F k))).map Prod.fst = ks := by
  induction ks with
  | nil => rfl
  | cons x t ih => simp [ih]

theorem scanStep_keeps_pos (matcher : String → VSlot → Bool) (acc : ApiState × List String)
    (x j : String) (e : Entry) (hj : alFind? acc.1.cache j = some e)
    (hc : 0 < e.subscribersCount) :
    alFind? ((touchScanStep matcher acc x).1).cache j = some e := by
  rcases hx : alFind? acc.1.cache x with _ | it
  · simpa [touchScanStep, hx] using hj
  · by_cases hm : matcher x (slotGetMaybeError it.value) = false
    · simpa [touchScanStep, hx, hm] using hj
    · by_cases hcnt : it.subscribersCount ≤ 0
      · have hxj : j ≠ x := by
          rintro rfl
          rw [hj] at hx
          injection hx with hx'
          rw [← hx'] at hcnt
          omega
        simp [touchScanStep, hx, hm, hcnt, clearEntryTimer_cache,
          alFind?_delete_ne _ _ _ hxj, hj]
      · simpa [touchScanStep, hx, hm, hcnt] using hj

theorem scanFold_keeps_pos (matcher : String → VSlot → Bool) (ks : List String)
    (acc : ApiState × List String) (j : String) (e : Entry)
    (hj : alFind? acc.1.cache j = some e) (hc : 0 < e.subscribersCount) :
    alFind? ((ks.foldl (touchScanStep matcher) acc).1).cache j = some e := by
  induction ks generalizing acc with
  | nil => exact hj
  | cons x t ih => exact ih _ (scanStep_keeps_pos matcher acc x j e hj hc)

theorem scanStep_lookup_mono (matcher : String → VSlot → Bool)
    (acc : ApiState × List String) (x j : String) (e : Entry)
    (h : alFind? ((touchScanStep matcher acc x).1).cache j = some e) :
    alFind? acc.1.cache j = some e := by
  rcases hx : alFind? acc.1.cache x with _ | it
  · simpa [touchScanStep, hx] using h
  · by_cases hm : matcher x (slotGetMaybeError it.value) = false
    · simpa [touchScanStep, hx, hm] using h
    · by_cases hcnt : it.subscribersCount ≤ 0
      · by_cases hxj : j = x
        · subst hxj
          simp [touchScanStep, hx, hm, hcnt, clearEntryTimer_cache,
            alFind?_delete_self] at h
        · simpa [touchScanStep, hx, hm, hcnt, clearEntryTimer_cache,
            alFind?_delete_ne _ _ _ hxj] using h
      · simpa [touchScanStep, hx, hm, hcnt] using h

theorem scanFold_count (matcher : String → VSlot → Bool) (ks : List String)
    (acc : ApiState × List String) (j : String) (e : Entry)
    (hj : alFind? acc.1.cache j = some e) (hc : 0 < e.subscribersCount)
    (hm : matcher j (slotGetMaybeError e.value) = true) :
    occCount j ((ks.foldl (touchScanStep matcher) acc).2)
      = occCount j acc.2 + occCount j ks := by
  induction ks generalizing acc with
  | nil => simp [occCount]
  | cons x t ih =>
      rw [List.foldl_cons]
      by_cases hxj : x = j
      · subst hxj
        have hcnt : ¬x.1 = x.1 ∨ True := Or.inr trivial
        have hstep : touchScanStep matcher acc x = (acc.1, acc.2 ++ [x]) := by
          have hle : ¬e.subscribersCount ≤ 0 := by omega
          simp [touchScanStep, hj, hm, hle]
        rw [hstep, ih (acc.1, acc.2 ++ [x]) hj]
        simp [occCount, occCount_append]
        omega
      · have hj' := scanStep_keeps_pos matcher acc x j e hj hc
        rw [ih (touchScanStep matcher acc x) hj']
        have h2 : occCount j ((touchScanStep matcher acc x).2) = occCount j acc.2 := by
          rcases hx : alFind? acc.1.cache x with _ | it
          · simp [touchScanStep, hx]
          · by_cases hmx : matcher x (slotGetMaybeError it.value) = false
            · simp [touchScanStep, hx, hmx]
            · by_cases hcx : it.subscribersCount ≤ 0
              · simp [touchScanStep, hx, hmx, hcx]
              · simp [touchScanStep, hx, hmx, hcx, occCount_append, occCount, hxj]
        rw [h2]
        simp [occCount, hxj]

theorem scanFold_mem_origin (matcher : String → VSlot → Bool) (ks : List String)
    (acc : ApiState × List String) (j : String)
    (h : j ∈ (ks.foldl (touchScanStep matcher) acc).2) :
    j ∈ acc.2 ∨ ∃ e, alFind? acc.1.cache j = some e ∧ 0 < e.subscribersCount ∧
      matcher j (slotGetMaybeError e.value) = true := by
  induction ks generalizing acc with
  | nil => exact Or.inl h
  | cons x t ih =>
      rw [List.foldl_cons] at h
      rcases ih _ h with hmem | ⟨e, he, hce, hme⟩
      · rcases hx : alFind? acc.1.cache x with _ | it
        · left; simpa [touchScanStep, hx] using hmem
        · by_cases hmx : matcher x (slotGetMaybeError it.value) = false
          · left; simpa [touchScanStep, hx, hmx] using hmem
          · by_cases hcx : it.subscribersCount ≤ 0
            · left; simpa [touchScanStep, hx, hmx, hcx] using hmem
            · simp only [touchScanStep, hx, hmx, Bool.not_eq_false, if_neg, hcx,
                ite_false, List.mem_append, List.mem_singleton] at hmem
              rcases hmem with hmem | rfl
              · exact Or.inl hmem
              · right
                refine ⟨it, hx, by omega, ?_⟩
                simpa using hmx
      · exact Or.inr ⟨e, scanStep_lookup_mono matcher acc x j e he, hce, hme⟩

theorem markFold_notes (dedup : JsVal → List (String × JsVal)) (ks : List String)
    (acc : ApiState × List String) :
    (ks.foldl (markStep dedup) acc).2 = acc.2 := by
  induction ks generalizing acc with
  | nil => rfl
  | cons x t ih =>
      rw [List.foldl_cons, ih]
      simp [markStep, setKey_notes, expectedNotes]

theorem markFold_keeps_other (dedup : JsVal → List (String × JsVal)) (ks : List String)
    (acc : ApiState × List String) (j : String) (e : Entry)
    (hj : alFind? acc.1.cache j = some e) (hks : j ∉ ks) :
    alFind? ((ks.foldl (markStep dedup) acc).1).cache j = some e := by
  induction ks generalizing acc with
  | nil => exact hj
  | cons x t ih =>
      simp only [List.mem_cons, not_or] at hks
      rw [List.foldl_cons]
      exact ih _ (setKey_keeps_other dedup _ x (.future _) j e hj hks.1) hks.2

theorem markFold_self (dedup : JsVal → List (String × JsVal)) (ks : List String)
    (acc : ApiState × List String) (j : String) (e : Entry)
    (hj : alFind? acc.1.cache j = some e) (h1 : occCount j ks = 1) :
    ∃ p, alFind? ((ks.foldl (markStep dedup) acc).1).cache j
        = some ⟨slotGetMaybeError e.value, some p, e.subscribersCount,
            e.dependentKeys, none⟩ := by
  induction ks generalizing acc with
  | nil => simp [occCount] at h1
  | cons x t ih =>
      by_cases hxj : x = j
      · subst hxj
        have ht : occCount x t = 0 := by
          simp [occCount] at h1
          omega
        have hnot : x ∉ t := not_mem_of_occCount_eq_zero ht
        rw [List.foldl_cons]
        refine ⟨acc.1.nextPromiseId, ?_⟩
        refine markFold_keeps_other dedup t _ x _ ?_ hnot
        have hs := setKey_self dedup
          { acc.1 with nextPromiseId := acc.1.nextPromiseId + 1,
                       requests := acc.1.requests ++ [(acc.1.nextPromiseId, x)] }
          x (.future acc.1.nextPromiseId)
        simpa [markStep, writtenEntry, entrySlot, countOf, depsOf, hj] using hs
      · have ht : occCount j t = 1 := by simpa [occCount, hxj] using h1
        rw [List.foldl_cons]
        exact ih _ (setKey_keeps_other dedup _ x (.future _) j e hj (Ne.symm hxj)) ht

theorem commitFold_keeps_other (dedup : JsVal → List (String × JsVal))
    (kvs : List (String × JsVal)) (acc : ApiState × List String) (j : String) (e : Entry)
    (hj : alFind? acc.1.cache j = some e) (hks : j ∉ kvs.map Prod.fst) :
    alFind? ((kvs.foldl (commitStep dedup) acc).1).cache j = some e := by
  induction kvs generalizing acc with
  | nil => exact hj
  | cons hd t ih =>
      obtain ⟨x, v⟩ := hd
      simp only [List.map_cons, List.mem_cons, not_or] at hks
      rw [List.foldl_cons]
      exact ih _ (setKey_keeps_other dedup _ x (.js v) j e hj hks.1) hks.2

theorem commitFold_notes (dedup : JsVal → List (String × JsVal))
    (kvs : List (String × JsVal)) (acc : ApiState × List String) :
    (kvs.foldl (commitStep dedup) acc).2 = acc.2 ++ kvs.map Prod.fst := by
  induction kvs generalizing acc with
  | nil => simp
  | cons hd t ih =>
      obtain ⟨x, v⟩ := hd
      rw [List.foldl_cons, ih]
      simp [commitStep, setKey_notes, expectedNotes]

theorem commitFold_self (dedup : JsVal → List (String × JsVal)) (F : String → JsVal)
    (ks : List String) (acc : ApiState × List String) (j : String) (e : Entry)
    (hj : alFind? acc.1.cache j = some e) (h1 : occCount j ks = 1) :
    (alFind? (((ks.map (fun k => (k, F k))).foldl (commitStep dedup) acc).1).cache j).map
        Entry.value = some (valueSlotOf (F j)) := by
  induction ks generalizing acc with
  | nil => simp [occCount] at h1
  | cons x t ih =>
      by_cases hxj : x = j
      · subst hxj
        have ht : occCount x t = 0 := by
          simp [occCount] at h1
          omega
        have hnot : x ∉ t := not_mem_of_occCount_eq_zero ht
        rw [List.map_cons, List.foldl_cons]
        have hself := setKey_self dedup acc.1 x (.js (F x))
        have hkeep := commitFold_keeps_other dedup (t.map fun k => (k, F k))
          (commitStep dedup acc (x, F x)) x _ hself (by simpa [map_fst_pair] using hnot)
        rw [hkeep]
        cases hF : F x <;> simp [writtenEntry, valueSlotOf, hF]
      · rw [List.map_cons, List.foldl_cons]
        exact ih _ (setKey_keeps_other dedup _ x (.js (F x)) j e hj (Ne.symm hxj))
          (by simpa [occCount, hxj] using h1)

theorem touch_scanned_props (matcher : String → VSlot → Bool) (st : ApiState)
    (hnd : (st.cache.map Prod.fst).Nodup) (k : String)
    (hk : k ∈ (touchScan matcher st).2) :
    ∃ e, alFind? st.cache k = some e ∧ 0 < e.subscribersCount ∧
      matcher k (slotGetMaybeError e.value) = true ∧
      alFind? (touchScan matcher st).1.cache k = some e ∧
      occCount k (touchScan matcher st).2 = 1 := by
  rcases scanFold_mem_origin matcher _ (st, []) k hk with hmem | ⟨e, he, hce, hme⟩
  · simp at hmem
  · refine ⟨e, he, hce, hme, scanFold_keeps_pos matcher _ (st, []) k e he hce, ?_⟩
    have hkeys : k ∈ st.cache.map Prod.fst := alFind?_mem_keys _ _ _ he
    have hcnt := scanFold_count matcher (st.cache.map Prod.fst) (st, []) k e he hce hme
    rw [touchScan, hcnt]
    simp [occCount, occCount_eq_one_of_nodup_mem hnd hkeys]

theorem touch_scan_mem (matcher : String → VSlot → Bool) (st : ApiState)
    (hnd : (st.cache.map Prod.fst).Nodup) (k : String) (it : Entry)
    (hk : alFind? st.cache k = some it) (hc : 0 < it.subscribersCount)
    (hm : matcher k (slotGetMaybeError it.value) = true) :
    k ∈ (touchScan matcher st).2 := by
  have hkeys := alFind?_mem_keys _ _ _ hk
  have hcnt := scanFold_count matcher (st.cache.map Prod.fst) (st, []) k it hk hc hm
  have h1 : occCount k (touchScan matcher st).2 = 1 := by
    rw [touchScan, hcnt]
    simp [occCount, occCount_eq_one_of_nodup_mem hnd hkeys]
  by_contra hno
  rw [occCount_eq_zero_of_not_mem hno] at h1
  simp at h1

theorem touch_final_value (dedup : JsVal → List (String × JsVal))
    (matcher : String → VSlot → Bool) (fetch : String → FetchResult) (st : ApiState)
    (hnd : (st.cache.map Prod.fst).Nodup) (k : String)
    (hk : k ∈ (touchScan matcher st).2) :
    (alFind? (touchWithMatcher dedup matcher fetch st).1.cache k).map Entry.value
      = some (valueSlotOf (fetchToVal (fetch k))) := by
  obtain ⟨e, he, hce, hme, hkeep, hocc⟩ := touch_scanned_props matcher st hnd k hk
  obtain ⟨p, hmid⟩ := markFold_self dedup (touchScan matcher st).2
    ((touchScan matcher st).1, []) k e hkeep hocc
  have hfin := commitFold_self dedup (fun k => fetchToVal (fetch k))
    (touchScan matcher st).2 ((touchBeforeSettle dedup matcher st).1, []) k _ hmid hocc
  simpa [touchWithMatcher, touchBeforeSettle, touchCommit, touchMarkPending] using hfin

theorem loadUrl_thrower (dedup : JsVal → List (String × JsVal)) (st : ApiState)
    (k : String) (ks : List String) (e : Nat) (pr : Option Nat) (cnt : Int)
    (deps : List String) (tmo : Option Nat)
    (h : alFind? st.cache k = some ⟨.thrower e, pr, cnt, deps, tmo⟩) :
    loadUrl dedup st k ks = (.raiseErr e, st, addKeyOnce ks k) := by
  simp [loadUrl, h]

/-- Claim C1: nothing a touch does before every one of its parallel
refetches has settled is observable -- the pre-settle phase emits no
subscriber notifications and leaves the observable value of every matched
subscribed key unchanged -- and once all refetches have settled, the
results are written and notified as one batch: the call's entire
notification list is exactly the matched subscribed keys, produced by the
post-settle commit, which writes each such key's settled result. -/
theorem touch_atomic_batch (dedup : JsVal → List (String × JsVal))
    (matcher : String → VSlot → Bool) (fetch : String → FetchResult) (st : ApiState)
    (hnd : (st.cache.map Prod.fst).Nodup) :
    (touchBeforeSettle dedup matcher st).2 = [] ∧
    (∀ k ∈ (touchScan matcher st).2,
        entryView (touchBeforeSettle dedup matcher st).1 k = entryView st k) ∧
    (touchWithMatcher dedup matcher fetch st).2 = (touchScan matcher st).2 ∧
    (∀ k ∈ (touchScan matcher st).2,
        (alFind? (touchWithMatcher dedup matcher fetch st).1.cache k).map Entry.value
          = some (valueSlotOf (fetchToVal (fetch k)))) := by
  refine ⟨markFold_notes dedup _ _, ?_, ?_, ?_⟩
  · intro k hk
    obtain ⟨e, he, hce, hme, hkeep, hocc⟩ := touch_scanned_props matcher st hnd k hk
    obtain ⟨p, hmid⟩ := markFold_self dedup (touchScan matcher st).2
      ((touchScan matcher st).1, []) k e hkeep hocc
    have hmid' : alFind? (touchBeforeSettle dedup matcher st).1.cache k
        = some ⟨slotGetMaybeError e.value, some p, e.subscribersCount,
            e.dependentKeys, none⟩ := hmid
    simp [entryView, hmid', he, slotGetMaybeError_idem]
  · have hnotes1 : (touchBeforeSettle dedup matcher st).2 = [] :=
      markFold_notes dedup _ _
    have hnotes2 : (touchCommit dedup (touchBeforeSettle dedup matcher st).1
        ((touchScan matcher st).2.map (fun k => (k, fetchToVal (fetch k))))).2
        = (touchScan matcher st).2 := by
      rw [touchCommit, commitFold_notes]
      simpa using map_fst_pair (fun k => fetchToVal (fetch k)) (touchScan matcher st).2
    show (touchBeforeSettle dedup matcher st).2
        ++ (touchCommit dedup (touchBeforeSettle dedup matcher st).1
             ((touchScan matcher st).2.map (fun k => (k, fetchToVal (fetch k))))).2
      = (touchScan matcher st).2
    rw [hnotes1, hnotes2]
    simp
  · intro k hk
    exact touch_final_value dedup matcher fetch st hnd k hk

/-- Witness for C1: on a store with the single subscribed entry a, the
pre-settle phase of a touch matching everything notifies nothing, the
whole call notifies exactly the matched keys, and the settled value 2 is
written for a. -/
theorem touch_atomic_batch_w :
    (stTouchW.cache.map Prod.fst).Nodup ∧
    (touchBeforeSettle dedup0 matcherAll stTouchW).2 = [] ∧
    (touchWithMatcher dedup0 matcherAll fetchW stTouchW).2
      = (touchScan matcherAll stTouchW).2 ∧
    (alFind? (touchWithMatcher dedup0 matcherAll fetchW stTouchW).1.cache "a").map
        Entry.value = some (.plain (.num 2)) := by
  have h := touch_atomic_batch dedup0 matcherAll fetchW stTouchW (by decide)
  refine ⟨by decide, h.1, h.2.2.1, ?_⟩
  have hv := h.2.2.2 "a" (by decide)
  simpa [fetchW, fetchToVal, valueSlotOf] using hv

/-- Claim C4: a fetch resolution with HTTP 404 stores the value null (not
an error) for the key; any other failure stores the error itself, which a
suspending read re-raises while leaving the state untouched -- so every
subsequent read re-raises it until the entry is overwritten; and a touch
that refetches a subscribed null-valued key and receives 404 again leaves
the cached value null. -/
theorem fetch_404_null_error_cached (dedup : JsVal → List (String × JsVal))
    (st st2 : ApiState) (k : String) (e : Nat) (ks : List String)
    (matcher : String → VSlot → Bool) (fetch : String → FetchResult) (it : Entry)
    (h1 : alFind? st2.cache k = some it) (h2 : it.value = .plain .null)
    (h3 : 0 < it.subscribersCount) (h4 : matcher k (.plain .null) = true)
    (h5 : fetch k = .notFound) (hnd : (st2.cache.map Prod.fst).Nodup) :
    (alFind? (resolveFetch dedup st k .notFound).1.cache k).map Entry.value
        = some (.plain .null) ∧
    (alFind? (resolveFetch dedup st k (.failure e)).1.cache k).map Entry.value
        = some (.thrower e) ∧
    (loadUrl dedup (resolveFetch dedup st k (.failure e)).1 k ks).1 = .raiseErr e ∧
    (loadUrl dedup (resolveFetch dedup st k (.failure e)).1 k ks).2.1
        = (resolveFetch dedup st k (.failure e)).1 ∧
    (alFind? (touchWithMatcher dedup matcher fetch st2).1.cache k).map Entry.value
        = some (.plain .null) := by
  have hent : alFind? (resolveFetch dedup st k (.failure e)).1.cache k
      = some ⟨.thrower e, none, countOf st k, depsOf st k, none⟩ := by
    simp [resolveFetch, setKey_self, writtenEntry]
  refine ⟨?_, ?_, ?_, ?_, ?_⟩
  · simp [resolveFetch, setKey_self, writtenEntry]
  · simp [resolveFetch, setKey_self, writtenEntry]
  · rw [loadUrl_thrower dedup _ k ks e _ _ _ _ hent]
  · rw [loadUrl_thrower dedup _ k ks e _ _ _ _ hent]
  · have hm : matcher k (slotGetMaybeError it.value) = true := by
      rw [h2]
      exact h4
    have hmem := touch_scan_mem matcher st2 hnd k it h1 h3 hm
    have hfin := touch_final_value dedup matcher fetch st2 hnd k hmem
    rw [h5] at hfin
    simpa [fetchToVal, valueSlotOf] using hfin

/-- Witness for C4: a 404 resolution on the empty store for k caches
null; a failure resolution caches the error 3, which a read re-raises;
and a matching touch on the store holding null for k, with the refetch
settling 404 again, leaves null cached. -/
theorem fetch_404_null_error_cached_w :
    alFind? stNullW.cache "k" = some ⟨.plain .null, none, 1, [], none⟩ ∧
    (alFind? (resolveFetch dedup0 initState "k" .notFound).1.cache "k").map Entry.value
        = some (.plain .null) ∧
    (loadUrl dedup0 (resolveFetch dedup0 initState "k" (.failure 3)).1 "k" []).1
        = .raiseErr 3 ∧
    (alFind? (touchWithMatcher dedup0 matcherAll fetch404 stNullW).1.cache "k").map
        Entry.value = some (.plain .null) := by
  have h := fetch_404_null_error_cached dedup0 initState stNullW "k" 3 [] matcherAll
    fetch404 ⟨.plain .null, none, 1, [], none⟩ rfl rfl (by decide) rfl rfl (by decide)
  exact ⟨rfl, h.1, h.2.2.1, h.2.2.2.2⟩

end SynvoxApi
